import Mathlib

/-!
Verification development for the chat application's presence and
message-delivery subsystem.

The definitions below are shallow embeddings of the server code:

* the session registry `onlineUsers : Map<string, Set<string>>` together
  with the socket connect/disconnect handlers of
  `src/socket/socketHandlers.ts` (the `setupSocketHandlers` revision);
* the single-socket map `userSocketMap : { [userId]: string }` of the
  `SocketService` revision in `app.ts`;
* the message store operations of `MessageService`
  (`createMessage`, `getConversationMessages`, `markMessagesAsSeen`,
  `markSingleMessageAsSeen`, `deleteMessage`) and the HTTP controllers
  (`message.controller.ts`, both the legacy revision and the
  service-backed revision).

Maps are embedded as association lists with unique keys, Mongo documents
as records in a list kept in creation order (Mongo `_id`s are unique and
`createdAt` follows insertion order, so `sort createdAt: -1` is
`List.reverse`).
-/

namespace ChatApp

abbrev UserId := String
abbrev SocketId := String

/-- One entry per online user: the user id together with the set of live
socket ids (a duplicate-free list), mirroring the module-level
`onlineUsers = new Map<string, Set<string>>()` of `socketHandlers.ts`. -/
abbrev Registry := List (UserId × List SocketId)

/-- `onlineUsers.get(u)` for the first (unique) entry of `u`; `[]` when
the key is absent. -/
def connsOf (r : Registry) (u : UserId) : List SocketId :=
  match r with
  | [] => []
  | (v, cs) :: rest => if v = u then cs else connsOf rest u

/-- `onlineUsers.has(u)`. -/
def hasUser (r : Registry) (u : UserId) : Bool :=
  match r with
  | [] => false
  | (v, _) :: rest => if v = u then true else hasUser rest u

/-- The connect handler's registry mutation: create the entry if absent,
then `Set.add` the socket id (a no-op when already present). -/
def registerConn (r : Registry) (u : UserId) (c : SocketId) : Registry :=
  match r with
  | [] => [(u, [c])]
  | (v, cs) :: rest =>
    if v = u then (v, if c ∈ cs then cs else cs ++ [c]) :: rest
    else (v, cs) :: registerConn rest u c

/-- The disconnect handler's registry mutation: if the user has an entry,
`Set.delete` the socket id and drop the key when the set becomes empty;
silently a no-op otherwise. -/
def deregisterConn (r : Registry) (u : UserId) (c : SocketId) : Registry :=
  match r with
  | [] => []
  | (v, cs) :: rest =>
    if v = u then
      (if cs.erase c = [] then rest else (v, cs.erase c) :: rest)
    else (v, cs) :: deregisterConn rest u c

/-- `isUserOnline` over the set-valued registry: the user has a key. -/
def isOnline (r : Registry) (u : UserId) : Bool := hasUser r u

/-- `Array.from(onlineUsers.keys())`, the list broadcast by
`emitOnlineUsers`. -/
def onlineUserIds (r : Registry) : List UserId := r.map Prod.fst

/-- A register (authenticated socket connect) or deregister (socket
disconnect) call against the session registry. -/
inductive RegEvent
  | register (u : UserId) (c : SocketId)
  | deregister (u : UserId) (c : SocketId)
deriving DecidableEq

def applyEvent (r : Registry) (e : RegEvent) : Registry :=
  match e with
  | .register u c => registerConn r u c
  | .deregister u c => deregisterConn r u c

/-- The registry reached from the initially empty map by a sequence of
connect/disconnect calls. -/
def applyEvents (evs : List RegEvent) : Registry :=
  evs.foldl applyEvent []

/-- Structural invariants of the embedded `Map<string, Set<string>>`:
keys are unique, every value is a set (no duplicates), and no key maps to
an empty set (the disconnect handler deletes emptied keys). -/
structure RegistryWF (r : Registry) : Prop where
  keysNodup : (r.map Prod.fst).Nodup
  connsNodup : ∀ p ∈ r, p.2.Nodup
  connsNonempty : ∀ p ∈ r, p.2 ≠ []

/-! ## Presence broadcasting (socketHandlers.ts connection / disconnect handlers)

The connection handler (for a socket that passed the authentication
middleware, so `socket.userId` is set) registers the socket and then
calls `emitOnlineUsers(io)` unconditionally; the disconnect handler
deregisters and again calls `emitOnlineUsers(io)` unconditionally.  Each
handler therefore produces exactly one full-list broadcast. -/

def handleConnect (r : Registry) (u : UserId) (c : SocketId) :
    Registry × List (List UserId) :=
  let r' := registerConn r u c
  (r', [onlineUserIds r'])

def handleDisconnect (r : Registry) (u : UserId) (c : SocketId) :
    Registry × List (List UserId) :=
  let r' := deregisterConn r u c
  (r', [onlineUserIds r'])

/-! ## Message store (Mongo `Message` collection) -/

/-- A document of the `Message` collection (`models/Message.ts`, the
senderId/receiverId/text/image/seen schema).  `text` and `image` are both
optional in the schema; `seen` defaults to `false`. -/
structure Msg where
  id : String
  senderId : String
  receiverId : String
  text : Option String
  image : Option String
  seen : Bool
  createdAt : Nat
deriving DecidableEq

/-- The collection, in creation order. -/
abbrev Store := List Msg

/-- `Message.findById`: documents are keyed by unique `_id`. -/
def findMsg (s : Store) (mid : String) : Option Msg :=
  match s with
  | [] => none
  | m :: rest => if m.id = mid then some m else findMsg rest mid

def storeIds (s : Store) : List String := s.map Msg.id

/-- JavaScript falsiness of an optional string field: absent or empty. -/
def jsFalsy : Option String → Bool
  | none => true
  | some t => t == ""

/-- Outcome of a service call that either succeeds or throws an
`AppError` carrying an HTTP status (404 NotFound, 403 Forbidden,
400 InvalidArgument). -/
inductive OpResult
  | ok
  | httpError (status : Nat)
deriving DecidableEq

inductive SendResult
  | created (m : Msg)
  | httpError (status : Nat)
deriving DecidableEq

/-- `MessageService.createMessage`: validate that both users exist
(404 otherwise), upload the image when one is provided (modelled as the
identity on the reference), reject when neither text nor uploaded image
is present (400), then persist with `seen: false`.  `newId` is the fresh
Mongo `_id`, `now` the creation timestamp. -/
def createMessage (users : List UserId) (s : Store) (newId : String) (now : Nat)
    (senderId receiverId : String) (text image : Option String) :
    SendResult × Store :=
  if senderId ∉ users then (SendResult.httpError 404, s)
  else if receiverId ∉ users then (SendResult.httpError 404, s)
  else if jsFalsy text && jsFalsy (if jsFalsy image then none else image) then
    (SendResult.httpError 400, s)
  else
    let m : Msg :=
      { id := newId, senderId := senderId, receiverId := receiverId,
        text := if jsFalsy text then none else text,
        image := if jsFalsy image then none else image,
        seen := false, createdAt := now }
    (SendResult.created m, s ++ [m])

/-- The conversation filter of `getConversationMessages` and the legacy
`getMessages`: messages in either direction between the two users. -/
def conversationBetween (a b : UserId) (m : Msg) : Bool :=
  decide ((m.senderId = a ∧ m.receiverId = b) ∨ (m.senderId = b ∧ m.receiverId = a))

/-- `MessageService.markMessagesAsSeen`: `updateMany` over documents with
the given sender and receiver that are still unseen, setting `seen`. -/
def markMessagesAsSeen (s : Store) (senderId receiverId : UserId) : Store :=
  s.map (fun m =>
    if m.senderId = senderId ∧ m.receiverId = receiverId ∧ m.seen = false then
      { m with seen := true }
    else m)

structure ConversationPage where
  messages : List Msg
  total : Nat
deriving DecidableEq

inductive ConvResult
  | page (p : ConversationPage)
  | httpError (status : Nat)
deriving DecidableEq

/-- `MessageService.getConversationMessages`: validate both users (404),
fetch the conversation sorted `createdAt: -1` with `skip`/`limit`, then
reverse the page back to oldest-first; afterwards run the bulk
mark-seen side effect on messages sent by `otherUserId` to `userId`.
The returned page is computed from the store as fetched, before the
side effect. -/
def getConversationMessages (users : List UserId) (s : Store)
    (userId otherUserId : UserId) (page limit : Nat) : ConvResult × Store :=
  if userId ∉ users ∨ otherUserId ∉ users then (ConvResult.httpError 404, s)
  else
    (ConvResult.page
      ⟨((((s.filter (conversationBetween userId otherUserId)).reverse.drop
            ((page - 1) * limit)).take limit)).reverse,
        (s.filter (conversationBetween userId otherUserId)).length⟩,
      markMessagesAsSeen s otherUserId userId)

/-- `MessageService.markSingleMessageAsSeen`: 404 when the message is
absent, 403 unless the caller is the receiver, and only an unseen
message is saved back with `seen := true`. -/
def markSingleMessageAsSeen (s : Store) (messageId userId : String) :
    OpResult × Store :=
  match findMsg s messageId with
  | none => (OpResult.httpError 404, s)
  | some m =>
    if m.receiverId ≠ userId then (OpResult.httpError 403, s)
    else if m.seen = false then
      (OpResult.ok, s.map (fun x => if x.id = messageId then { x with seen := true } else x))
    else (OpResult.ok, s)

/-- `MessageService.deleteMessage`: 404 when absent, 403 unless the
caller is the sender, otherwise `findByIdAndDelete` (removal of the
document with that unique `_id`). -/
def deleteMessage (s : Store) (messageId userId : String) : OpResult × Store :=
  match findMsg s messageId with
  | none => (OpResult.httpError 404, s)
  | some m =>
    if m.senderId ≠ userId then (OpResult.httpError 403, s)
    else (OpResult.ok, s.filter (fun x => decide (x.id ≠ messageId)))

/-! ## Socket delivery (SocketService of app.ts) -/

/-- The `SocketService` registry `userSocketMap : { [userId]: string }`:
one socket id per user. -/
abbrev SocketMap := List (UserId × SocketId)

def lookupSocket (m : SocketMap) (u : UserId) : Option SocketId :=
  match m with
  | [] => none
  | (v, sid) :: rest => if v = u then some sid else lookupSocket rest u

/-- A socket emission: the target socket and the event name. -/
structure Emission where
  target : SocketId
  event : String
deriving DecidableEq

/-- The `MessageData` payload of the `send_message` socket event. -/
structure SendMessageInput where
  receiverId : String
  text : Option String
  image : Option String

/-- `SocketService.handleSendMessage`: reject a missing receiver id or a
payload with neither text nor image by emitting `error` to the calling
socket; otherwise create the message, ack `message_sent` to the calling
socket, and push `message_received` to the receiver's mapped socket when
one exists.  A `createMessage` failure is caught and reported as an
`error` emission. -/
def handleSendMessage (map : SocketMap) (users : List UserId) (s : Store)
    (newId : String) (now : Nat) (callerSid : SocketId) (senderId : String)
    (data : SendMessageInput) : Store × List Emission :=
  if data.receiverId = "" then (s, [⟨callerSid, "error"⟩])
  else if jsFalsy data.text && jsFalsy data.image then (s, [⟨callerSid, "error"⟩])
  else
    match createMessage users s newId now senderId data.receiverId data.text data.image with
    | (SendResult.created _, s') =>
      (s', ⟨callerSid, "message_sent"⟩ ::
        (match lookupSocket map data.receiverId with
         | some sid => [⟨sid, "message_received"⟩]
         | none => []))
    | (SendResult.httpError _, s') => (s', [⟨callerSid, "error"⟩])

/-- The `ReadReceiptData` payload of the `mark_messages_read` socket
event: the caller supplies both the message ids and the `senderId` the
read receipt should be routed to. -/
structure ReadReceiptInput where
  messageIds : List String
  senderId : String

/-- `SocketService.handleMarkMessagesRead`: mark every listed message as
seen by the calling user (`Promise.all`, so each mark is attempted and
its store effect kept even when another one fails); when all marks
succeed, emit `messages_read` to the socket mapped to the
caller-supplied `senderId` (if any); when any mark throws, the catch
block emits `error` to the calling socket instead. -/
def markAllSeen (s : Store) (readerId : String) : List String → Store × Bool
  | [] => (s, true)
  | mid :: rest =>
    match markSingleMessageAsSeen s mid readerId with
    | (OpResult.ok, s') => markAllSeen s' readerId rest
    | (OpResult.httpError _, s') => ((markAllSeen s' readerId rest).1, false)

def handleMarkMessagesRead (map : SocketMap) (s : Store) (callerSid : SocketId)
    (readerId : String) (data : ReadReceiptInput) : Store × List Emission :=
  if (markAllSeen s readerId data.messageIds).2 then
    ((markAllSeen s readerId data.messageIds).1,
      match lookupSocket map data.senderId with
      | some sid => [⟨sid, "messages_read"⟩]
      | none => [])
  else ((markAllSeen s readerId data.messageIds).1, [⟨callerSid, "error"⟩])

/-! ## Room-based delivery (socketHandlers.ts send_message handler)

Every authenticated socket joins the room named by its user id, so a room
emit to a user id reaches exactly that user's live sockets, i.e.
`connsOf r u`. -/

def roomEmit (r : Registry) (u : UserId) (ev : String) : List Emission :=
  (connsOf r u).map (fun c => ⟨c, ev⟩)

/-- Emissions of the `send_message` handler of `socketHandlers.ts` on its
success path: `message_sent` to the sender's room, `message_received` to
each of the receiver's sockets when the receiver is online, then
`chat_updated` to both rooms. -/
def sendMessageEmissions (r : Registry) (senderId receiverId : UserId) :
    List Emission :=
  roomEmit r senderId "message_sent" ++
    (if isOnline r receiverId then roomEmit r receiverId "message_received" else []) ++
    (roomEmit r senderId "chat_updated" ++ roomEmit r receiverId "chat_updated")

/-! ## HTTP controllers -/

/-- The service-backed `deleteMessage` controller: fetch the message (404
when absent), delegate to `MessageService.deleteMessage`, and on success
push `message_deleted` to the original receiver's socket when that user
is online. -/
def deleteMessageHttp (map : SocketMap) (s : Store) (messageId requesterId : String) :
    OpResult × Store × List Emission :=
  match findMsg s messageId with
  | none => (OpResult.httpError 404, s, [])
  | some m =>
    match deleteMessage s messageId requesterId with
    | (OpResult.httpError e, s') => (OpResult.httpError e, s', [])
    | (OpResult.ok, s') =>
      (OpResult.ok, s',
        match lookupSocket map m.receiverId with
        | some sid => [⟨sid, "message_deleted"⟩]
        | none => [])

/-- The legacy `sendMessage` controller (`message.controller.ts`): upload
the image when given, then `Message.create` with no content validation
(the schema leaves both `text` and `image` optional), then push
`newMessage` to the receiver's socket when one is mapped.  It always
responds with success. -/
def legacySendMessage (map : SocketMap) (s : Store) (newId : String) (now : Nat)
    (senderId receiverId : String) (text image : Option String) :
    OpResult × Store × List Emission :=
  (OpResult.ok,
    s ++ [{ id := newId, senderId := senderId, receiverId := receiverId,
            text := text, image := if jsFalsy image then none else image,
            seen := false, createdAt := now }],
    match lookupSocket map receiverId with
    | some sid => [⟨sid, "newMessage"⟩]
    | none => [])

/-- The legacy `markMessagesAsSeen` controller (`message.controller.ts`):
`findByIdAndUpdate(id, seen := true)` with no authorization check; the
authenticated caller `readerId` (`req.user._id`) is never consulted. -/
def legacyMarkMessageAsSeen (s : Store) (messageId : String) (readerId : String) :
    OpResult × Store :=
  (OpResult.ok, s.map (fun m => if m.id = messageId then { m with seen := true } else m))

/-- The legacy `getMessages` controller (`message.controller.ts`): fetch
both directions of the conversation, then `updateMany` setting `seen` on
every message from the selected user to the current user. -/
def legacyGetMessages (s : Store) (currentUserId selectedUserId : UserId) :
    List Msg × Store :=
  (s.filter (conversationBetween currentUserId selectedUserId),
   s.map (fun m =>
     if m.senderId = selectedUserId ∧ m.receiverId = currentUserId then
       { m with seen := true }
     else m))

/-! ## The store operations of the system, for seen-flag monotonicity -/

/-- Every embedded operation that mutates (or may mutate) the message
store, across both server revisions. -/
inductive StoreOp
  | create (users : List UserId) (newId : String) (now : Nat)
      (senderId receiverId : String) (text image : Option String)
  | markBulk (senderId receiverId : UserId)
  | markSingle (messageId userId : String)
  | getConv (users : List UserId) (userId otherUserId : UserId) (page limit : Nat)
  | deleteOne (messageId userId : String)
  | legacySend (map : SocketMap) (newId : String) (now : Nat)
      (senderId receiverId : String) (text image : Option String)
  | legacyGet (currentUserId selectedUserId : UserId)
  | legacyMark (messageId readerId : String)

/-- The store component of each operation's effect. -/
def applyStoreOp (s : Store) : StoreOp → Store
  | .create users newId now a b t i => (createMessage users s newId now a b t i).2
  | .markBulk a b => markMessagesAsSeen s a b
  | .markSingle mid uid => (markSingleMessageAsSeen s mid uid).2
  | .getConv users a b p l => (getConversationMessages users s a b p l).2
  | .deleteOne mid uid => (deleteMessage s mid uid).2
  | .legacySend map newId now a b t i => (legacySendMessage map s newId now a b t i).2.1
  | .legacyGet a b => (legacyGetMessages s a b).2
  | .legacyMark mid rid => (legacyMarkMessageAsSeen s mid rid).2

/-- Freshness of the Mongo-generated `_id` an operation inserts. -/
def opFreshId (s : Store) : StoreOp → Prop
  | .create _ newId _ _ _ _ _ => newId ∉ storeIds s
  | .legacySend _ newId _ _ _ _ _ => newId ∉ storeIds s
  | _ => True

/-- The claim's condition on a call sequence: some register of the pair
`(u, c)` is not matched by a later deregister of the same pair. -/
def Outstanding (u : UserId) (c : SocketId) (evs : List RegEvent) : Prop :=
  ∃ l₁ l₂, evs = l₁ ++ RegEvent.register u c :: l₂ ∧ RegEvent.deregister u c ∉ l₂

/-! # Lemmas about the session registry -/

theorem outstanding_nil (u : UserId) (c : SocketId) : ¬ Outstanding u c [] := by
  rintro ⟨l₁, l₂, h, -⟩
  cases l₁ <;> simp at h

theorem outstanding_cons (u : UserId) (c : SocketId) (e : RegEvent)
    (rest : List RegEvent) :
    Outstanding u c (e :: rest) ↔
      (e = RegEvent.register u c ∧ RegEvent.deregister u c ∉ rest) ∨
        Outstanding u c rest := by
  constructor
  · rintro ⟨l₁, l₂, h, hne⟩
    cases l₁ with
    | nil =>
      obtain ⟨he, hr⟩ := List.cons.inj h
      exact Or.inl ⟨he, hr ▸ hne⟩
    | cons a l₁ =>
      obtain ⟨-, hr⟩ := List.cons.inj h
      exact Or.inr ⟨l₁, l₂, hr, hne⟩
  · rintro (⟨rfl, hne⟩ | ⟨l₁, l₂, rfl, hne⟩)
    · exact ⟨[], rest, rfl, hne⟩
    · exact ⟨e :: l₁, l₂, rfl, hne⟩

theorem connsOf_cons (v : UserId) (cs : List SocketId) (rest : Registry)
    (u : UserId) :
    connsOf ((v, cs) :: rest) u = if v = u then cs else connsOf rest u := rfl

theorem registerConn_cons (v : UserId) (cs : List SocketId) (rest : Registry)
    (u : UserId) (c : SocketId) :
    registerConn ((v, cs) :: rest) u c =
      if v = u then (v, if c ∈ cs then cs else cs ++ [c]) :: rest
      else (v, cs) :: registerConn rest u c := rfl

theorem deregisterConn_cons (v : UserId) (cs : List SocketId) (rest : Registry)
    (u : UserId) (c : SocketId) :
    deregisterConn ((v, cs) :: rest) u c =
      if v = u then
        (if cs.erase c = [] then rest else (v, cs.erase c) :: rest)
      else (v, cs) :: deregisterConn rest u c := rfl

theorem mem_connsOf_registerConn (r : Registry) (u : UserId) (c : SocketId)
    (w : UserId) (d : SocketId) :
    d ∈ connsOf (registerConn r u c) w ↔ (u = w ∧ c = d) ∨ d ∈ connsOf r w := by
  induction r with
  | nil =>
    show d ∈ connsOf [(u, [c])] w ↔ _
    rw [connsOf_cons]
    by_cases huw : u = w
    · rw [if_pos huw]
      simp [connsOf, huw, eq_comm]
    · rw [if_neg huw]
      simp [connsOf, huw]
  | cons p rest ih =>
    obtain ⟨v, cs⟩ := p
    rw [registerConn_cons]
    by_cases hvu : v = u
    · rw [if_pos hvu, connsOf_cons, connsOf_cons]
      by_cases hvw : v = w
      · rw [if_pos hvw, if_pos hvw]
        have huw : u = w := hvu ▸ hvw
        by_cases hccs : c ∈ cs
        · rw [if_pos hccs]
          constructor
          · intro hd
            exact Or.inr hd
          · rintro (⟨-, rfl⟩ | hd)
            · exact hccs
            · exact hd
        · rw [if_neg hccs]
          rw [List.mem_append, List.mem_singleton]
          constructor
          · rintro (hd | rfl)
            · exact Or.inr hd
            · exact Or.inl ⟨huw, rfl⟩
          · rintro (⟨-, rfl⟩ | hd)
            · exact Or.inr rfl
            · exact Or.inl hd
      · rw [if_neg hvw, if_neg hvw]
        have huw : ¬u = w := hvu ▸ hvw
        constructor
        · intro hd
          exact Or.inr hd
        · rintro (⟨huw', -⟩ | hd)
          · exact absurd huw' huw
          · exact hd
    · rw [if_neg hvu, connsOf_cons, connsOf_cons]
      by_cases hvw : v = w
      · rw [if_pos hvw, if_pos hvw]
        have huw : ¬u = w := fun h => hvu (hvw.trans h.symm)
        constructor
        · intro hd
          exact Or.inr hd
        · rintro (⟨huw', -⟩ | hd)
          · exact absurd huw' huw
          · exact hd
      · rw [if_neg hvw, if_neg hvw]
        exact ih

theorem registryWF_tail {p : UserId × List SocketId} {rest : Registry}
    (h : RegistryWF (p :: rest)) : RegistryWF rest := by
  refine ⟨?_, ?_, ?_⟩
  · have hk := h.keysNodup
    rw [List.map_cons, List.nodup_cons] at hk
    exact hk.2
  · exact fun q hq => h.connsNodup q (List.mem_cons_of_mem _ hq)
  · exact fun q hq => h.connsNonempty q (List.mem_cons_of_mem _ hq)

theorem connsOf_eq_nil_of_not_mem_keys {r : Registry} {u : UserId}
    (h : u ∉ r.map Prod.fst) : connsOf r u = [] := by
  induction r with
  | nil => rfl
  | cons p rest ih =>
    obtain ⟨v, cs⟩ := p
    rw [List.map_cons, List.mem_cons] at h
    push_neg at h
    rw [connsOf_cons, if_neg (fun hvu => h.1 hvu.symm)]
    exact ih h.2

theorem mem_connsOf_deregisterConn {r : Registry} (hwf : RegistryWF r)
    (u : UserId) (c : SocketId) (w : UserId) (d : SocketId) :
    d ∈ connsOf (deregisterConn r u c) w ↔
      d ∈ connsOf r w ∧ ¬(u = w ∧ c = d) := by
  induction r with
  | nil =>
    show d ∈ connsOf [] w ↔ _
    simp [connsOf]
  | cons p rest ih =>
    obtain ⟨v, cs⟩ := p
    have ih' := ih (registryWF_tail hwf)
    have hnodup : cs.Nodup := hwf.connsNodup (v, cs) (List.mem_cons_self _ _)
    rw [deregisterConn_cons]
    by_cases hvu : v = u
    · rw [if_pos hvu]
      by_cases herase : cs.erase c = []
      · rw [if_pos herase]
        by_cases hvw : v = w
        · have huw : u = w := hvu ▸ hvw
          have hkeys : w ∉ rest.map Prod.fst := by
            have hk := hwf.keysNodup
            rw [List.map_cons, List.nodup_cons] at hk
            exact hvw ▸ hk.1
          rw [connsOf_eq_nil_of_not_mem_keys hkeys, connsOf_cons, if_pos hvw]
          simp only [List.not_mem_nil, false_iff]
          rintro ⟨hd, hnot⟩
          by_cases hcd : c = d
          · exact hnot ⟨huw, hcd⟩
          · have hmem : d ∈ cs.erase c :=
              hnodup.mem_erase_iff.mpr ⟨fun h => hcd h.symm, hd⟩
            rw [herase] at hmem
            exact absurd hmem (List.not_mem_nil d)
        · have huw : ¬u = w := hvu ▸ hvw
          rw [connsOf_cons, if_neg hvw]
          constructor
          · intro hd
            exact ⟨hd, fun hh => huw hh.1⟩
          · exact fun hh => hh.1
      · rw [if_neg herase, connsOf_cons, connsOf_cons]
        by_cases hvw : v = w
        · have huw : u = w := hvu ▸ hvw
          rw [if_pos hvw, if_pos hvw, hnodup.mem_erase_iff]
          constructor
          · rintro ⟨hdc, hd⟩
            exact ⟨hd, fun hh => hdc hh.2.symm⟩
          · rintro ⟨hd, hnot⟩
            exact ⟨fun hdc => hnot ⟨huw, hdc.symm⟩, hd⟩
        · have huw : ¬u = w := hvu ▸ hvw
          rw [if_neg hvw, if_neg hvw]
          constructor
          · intro hd
            exact ⟨hd, fun hh => huw hh.1⟩
          · exact fun hh => hh.1
    · rw [if_neg hvu, connsOf_cons, connsOf_cons]
      by_cases hvw : v = w
      · have huw : ¬u = w := fun h => hvu (hvw.trans h.symm)
        rw [if_pos hvw, if_pos hvw]
        constructor
        · intro hd
          exact ⟨hd, fun hh => huw hh.1⟩
        · exact fun hh => hh.1
      · rw [if_neg hvw, if_neg hvw]
        exact ih'

theorem hasUser_cons (v : UserId) (cs : List SocketId) (rest : Registry)
    (u : UserId) :
    hasUser ((v, cs) :: rest) u = if v = u then true else hasUser rest u := rfl

theorem hasUser_iff_mem_keys (r : Registry) (u : UserId) :
    hasUser r u = true ↔ u ∈ r.map Prod.fst := by
  induction r with
  | nil => simp [hasUser]
  | cons p rest ih =>
    obtain ⟨v, cs⟩ := p
    rw [hasUser_cons, List.map_cons, List.mem_cons]
    by_cases hvu : v = u
    · rw [if_pos hvu]
      simp [hvu]
    · rw [if_neg hvu, ih]
      constructor
      · exact Or.inr
      · rintro (h | h)
        · exact absurd h.symm hvu
        · exact h

theorem keys_registerConn (r : Registry) (u : UserId) (c : SocketId) :
    (registerConn r u c).map Prod.fst =
      if hasUser r u = true then r.map Prod.fst else r.map Prod.fst ++ [u] := by
  induction r with
  | nil => simp [registerConn, hasUser]
  | cons p rest ih =>
    obtain ⟨v, cs⟩ := p
    rw [registerConn_cons, hasUser_cons]
    by_cases hvu : v = u
    · simp only [if_pos hvu, List.map_cons]
      simp
    · simp only [if_neg hvu, List.map_cons, ih]
      by_cases hh : hasUser rest u = true
      · rw [if_pos hh, if_pos hh]
      · rw [if_neg hh, if_neg hh, List.cons_append]

theorem keys_deregisterConn_sublist (r : Registry) (u : UserId) (c : SocketId) :
    ((deregisterConn r u c).map Prod.fst).Sublist (r.map Prod.fst) := by
  induction r with
  | nil => simp [deregisterConn]
  | cons p rest ih =>
    obtain ⟨v, cs⟩ := p
    rw [deregisterConn_cons]
    by_cases hvu : v = u
    · rw [if_pos hvu]
      by_cases herase : cs.erase c = []
      · rw [if_pos herase, List.map_cons]
        exact (List.Sublist.refl _).cons v
      · rw [if_neg herase, List.map_cons, List.map_cons]
    · rw [if_neg hvu, List.map_cons, List.map_cons]
      exact ih.cons₂ v

theorem wf_registerConn {r : Registry} (hwf : RegistryWF r) (u : UserId)
    (c : SocketId) : RegistryWF (registerConn r u c) := by
  induction r with
  | nil =>
    refine ⟨?_, ?_, ?_⟩ <;> simp [registerConn]
  | cons p rest ih =>
    obtain ⟨v, cs⟩ := p
    have hwfrest := registryWF_tail hwf
    have ih' := ih hwfrest
    have hhead : v ∉ rest.map Prod.fst := by
      have hk := hwf.keysNodup
      rw [List.map_cons, List.nodup_cons] at hk
      exact hk.1
    rw [registerConn_cons]
    by_cases hvu : v = u
    · rw [if_pos hvu]
      refine ⟨?_, ?_, ?_⟩
      · rw [List.map_cons]
        rw [List.nodup_cons]
        exact ⟨hhead, hwfrest.keysNodup⟩
      · intro q hq
        rcases List.mem_cons.mp hq with h | h
        · subst h
          by_cases hccs : c ∈ cs
          · rw [if_pos hccs]
            exact hwf.connsNodup (v, cs) (List.mem_cons_self _ _)
          · rw [if_neg hccs]
            rw [List.nodup_append]
            exact ⟨hwf.connsNodup (v, cs) (List.mem_cons_self _ _),
              List.nodup_singleton c,
              fun x hx hx' => hccs ((List.mem_singleton.mp hx') ▸ hx)⟩
        · exact hwfrest.connsNodup q h
      · intro q hq
        rcases List.mem_cons.mp hq with h | h
        · subst h
          by_cases hccs : c ∈ cs
          · rw [if_pos hccs]
            exact hwf.connsNonempty (v, cs) (List.mem_cons_self _ _)
          · rw [if_neg hccs]
            simp
        · exact hwfrest.connsNonempty q h
    · rw [if_neg hvu]
      refine ⟨?_, ?_, ?_⟩
      · rw [List.map_cons, List.nodup_cons]
        refine ⟨?_, ih'.keysNodup⟩
        rw [keys_registerConn]
        by_cases hh : hasUser rest u = true
        · rw [if_pos hh]
          exact hhead
        · rw [if_neg hh]
          intro hmem
          rcases List.mem_append.mp hmem with h | h
          · exact hhead h
          · exact hvu (List.mem_singleton.mp h)
      · intro q hq
        rcases List.mem_cons.mp hq with h | h
        · exact h ▸ hwf.connsNodup (v, cs) (List.mem_cons_self _ _)
        · exact ih'.connsNodup q h
      · intro q hq
        rcases List.mem_cons.mp hq with h | h
        · exact h ▸ hwf.connsNonempty (v, cs) (List.mem_cons_self _ _)
        · exact ih'.connsNonempty q h

theorem wf_deregisterConn {r : Registry} (hwf : RegistryWF r) (u : UserId)
    (c : SocketId) : RegistryWF (deregisterConn r u c) := by
  induction r with
  | nil => exact hwf
  | cons p rest ih =>
    obtain ⟨v, cs⟩ := p
    have hwfrest := registryWF_tail hwf
    have ih' := ih hwfrest
    have hhead : v ∉ rest.map Prod.fst := by
      have hk := hwf.keysNodup
      rw [List.map_cons, List.nodup_cons] at hk
      exact hk.1
    rw [deregisterConn_cons]
    by_cases hvu : v = u
    · rw [if_pos hvu]
      by_cases herase : cs.erase c = []
      · rw [if_pos herase]
        exact hwfrest
      · rw [if_neg herase]
        refine ⟨?_, ?_, ?_⟩
        · rw [List.map_cons, List.nodup_cons]
          exact ⟨hhead, hwfrest.keysNodup⟩
        · intro q hq
          rcases List.mem_cons.mp hq with h | h
          · exact h ▸ (hwf.connsNodup (v, cs) (List.mem_cons_self _ _)).erase c
          · exact hwfrest.connsNodup q h
        · intro q hq
          rcases List.mem_cons.mp hq with h | h
          · exact h ▸ herase
          · exact hwfrest.connsNonempty q h
    · rw [if_neg hvu]
      refine ⟨?_, ?_, ?_⟩
      · rw [List.map_cons, List.nodup_cons]
        refine ⟨?_, ih'.keysNodup⟩
        intro hmem
        exact hhead ((keys_deregisterConn_sublist rest u c).subset hmem)
      · intro q hq
        rcases List.mem_cons.mp hq with h | h
        · exact h ▸ hwf.connsNodup (v, cs) (List.mem_cons_self _ _)
        · exact ih'.connsNodup q h
      · intro q hq
        rcases List.mem_cons.mp hq with h | h
        · exact h ▸ hwf.connsNonempty (v, cs) (List.mem_cons_self _ _)
        · exact ih'.connsNonempty q h

theorem wf_applyEvent {r : Registry} (hwf : RegistryWF r) (e : RegEvent) :
    RegistryWF (applyEvent r e) := by
  cases e with
  | register u c => exact wf_registerConn hwf u c
  | deregister u c => exact wf_deregisterConn hwf u c

theorem wf_foldl_applyEvent (evs : List RegEvent) :
    ∀ r : Registry, RegistryWF r → RegistryWF (evs.foldl applyEvent r) := by
  induction evs with
  | nil => exact fun r h => h
  | cons e rest ih =>
    intro r h
    rw [List.foldl_cons]
    exact ih _ (wf_applyEvent h e)

theorem wf_empty : RegistryWF ([] : Registry) :=
  ⟨List.nodup_nil, by simp, by simp⟩

theorem isOnline_iff_exists_conn {r : Registry} (hwf : RegistryWF r)
    (u : UserId) : isOnline r u = true ↔ ∃ c, c ∈ connsOf r u := by
  induction r with
  | nil => simp [isOnline, hasUser, connsOf]
  | cons p rest ih =>
    obtain ⟨v, cs⟩ := p
    have ih' := ih (registryWF_tail hwf)
    show hasUser _ u = true ↔ _
    rw [hasUser_cons, connsOf_cons]
    by_cases hvu : v = u
    · rw [if_pos hvu, if_pos hvu]
      constructor
      · intro _
        exact List.exists_mem_of_ne_nil cs
          (hwf.connsNonempty (v, cs) (List.mem_cons_self _ _))
      · intro _
        rfl
    · rw [if_neg hvu, if_neg hvu]
      exact ih'

theorem mem_connsOf_foldl (evs : List RegEvent) :
    ∀ (r : Registry), RegistryWF r → ∀ (u : UserId) (c : SocketId),
      (c ∈ connsOf (evs.foldl applyEvent r) u ↔
        Outstanding u c evs ∨
          (c ∈ connsOf r u ∧ RegEvent.deregister u c ∉ evs)) := by
  induction evs with
  | nil =>
    intro r _ u c
    rw [List.foldl_nil]
    constructor
    · intro h
      exact Or.inr ⟨h, List.not_mem_nil _⟩
    · rintro (hout | ⟨h, -⟩)
      · exact absurd hout (outstanding_nil u c)
      · exact h
  | cons e rest ih =>
    intro r hwf u c
    rw [List.foldl_cons, ih (applyEvent r e) (wf_applyEvent hwf e) u c,
      outstanding_cons, List.mem_cons]
    cases e with
    | register u' c' =>
      have hmemreg := mem_connsOf_registerConn r u' c' u c
      rw [show applyEvent r (RegEvent.register u' c') = registerConn r u' c'
          from rfl]
      constructor
      · rintro (hout | ⟨hmem, hnd⟩)
        · exact Or.inl (Or.inr hout)
        · rcases hmemreg.mp hmem with ⟨rfl, rfl⟩ | hmem'
          · exact Or.inl (Or.inl ⟨rfl, hnd⟩)
          · refine Or.inr ⟨hmem', ?_⟩
            rintro (heq | hin)
            · exact RegEvent.noConfusion heq
            · exact hnd hin
      · rintro ((⟨heq, hnd⟩ | hout) | ⟨hmem, hnor⟩)
        · obtain ⟨h1, h2⟩ := RegEvent.register.inj heq
          subst h1
          subst h2
          exact Or.inr ⟨hmemreg.mpr (Or.inl ⟨rfl, rfl⟩), hnd⟩
        · exact Or.inl hout
        · exact Or.inr ⟨hmemreg.mpr (Or.inr hmem), fun h => hnor (Or.inr h)⟩
    | deregister u' c' =>
      have hmemder := mem_connsOf_deregisterConn hwf u' c' u c
      rw [show applyEvent r (RegEvent.deregister u' c') = deregisterConn r u' c'
          from rfl]
      constructor
      · rintro (hout | ⟨hmem, hnd⟩)
        · exact Or.inl (Or.inr hout)
        · obtain ⟨hmem', hne⟩ := hmemder.mp hmem
          refine Or.inr ⟨hmem', ?_⟩
          rintro (heq | hin)
          · obtain ⟨h1, h2⟩ := RegEvent.deregister.inj heq
            exact hne ⟨h1.symm, h2.symm⟩
          · exact hnd hin
      · rintro ((⟨heq, -⟩ | hout) | ⟨hmem, hnor⟩)
        · exact RegEvent.noConfusion heq
        · exact Or.inl hout
        · refine Or.inr ⟨hmemder.mpr ⟨hmem, ?_⟩, fun h => hnor (Or.inr h)⟩
          rintro ⟨rfl, rfl⟩
          exact hnor (Or.inl rfl)

/-- C1: for every sequence of register/deregister calls applied to the
initially empty session registry, the user is reported online exactly when
some register of a pair (u, c) in the sequence has no later deregister of
the same pair; users with several simultaneous connections are covered by
the generality of the sequence. -/
theorem isOnline_iff_unmatched_register (evs : List RegEvent) (u : UserId) :
    isOnline (applyEvents evs) u = true ↔
      ∃ c l₁ l₂, evs = l₁ ++ RegEvent.register u c :: l₂ ∧
        RegEvent.deregister u c ∉ l₂ := by
  show isOnline (evs.foldl applyEvent []) u = true ↔ _
  rw [isOnline_iff_exists_conn (wf_foldl_applyEvent evs [] wf_empty) u]
  constructor
  · rintro ⟨c, hc⟩
    rcases (mem_connsOf_foldl evs [] wf_empty u c).mp hc with hout | ⟨hmem, -⟩
    · obtain ⟨l₁, l₂, h1, h2⟩ := hout
      exact ⟨c, l₁, l₂, h1, h2⟩
    · exact absurd hmem (List.not_mem_nil c)
  · rintro ⟨c, l₁, l₂, h1, h2⟩
    exact ⟨c, (mem_connsOf_foldl evs [] wf_empty u c).mpr
      (Or.inl ⟨l₁, l₂, h1, h2⟩)⟩

/-- C6 counterexample: registering a second connection for an already-online
user leaves the registry's key set unchanged, yet the connection handler
still produces a presence broadcast. -/
theorem broadcast_without_membership_change :
    (handleConnect (applyEvents [RegEvent.register "u" "c1"]) "u" "c2").2 ≠ [] ∧
      onlineUserIds
          (handleConnect (applyEvents [RegEvent.register "u" "c1"]) "u" "c2").1 =
        onlineUserIds (applyEvents [RegEvent.register "u" "c1"]) := by
  constructor
  · decide
  · decide

/-- C6 (amended): the socket handlers broadcast the full online-user list
after every register call of an authenticated connection and after every
deregister call, regardless of whether the call changed the key set; in
particular an additional connection of an already-online user leaves the key
set unchanged but still triggers a broadcast. -/
theorem broadcast_after_every_registry_call (r : Registry) (u : UserId)
    (c : SocketId) :
    (handleConnect r u c).2 = [onlineUserIds (handleConnect r u c).1] ∧
      (handleDisconnect r u c).2 = [onlineUserIds (handleDisconnect r u c).1] ∧
      (isOnline r u = true →
        onlineUserIds (handleConnect r u c).1 = onlineUserIds r) := by
  refine ⟨rfl, rfl, fun honline => ?_⟩
  show (registerConn r u c).map Prod.fst = r.map Prod.fst
  rw [keys_registerConn, if_pos (show hasUser r u = true from honline)]

theorem broadcast_after_every_registry_call_witness :
    isOnline [("u", ["c1"])] "u" = true ∧
      onlineUserIds (handleConnect [("u", ["c1"])] "u" "c2").1 =
        onlineUserIds [("u", ["c1"])] :=
  ⟨by decide,
    (broadcast_after_every_registry_call [("u", ["c1"])] "u" "c2").2.2 (by decide)⟩

theorem connsOf_nodup {r : Registry} (hwf : RegistryWF r) (u : UserId) :
    (connsOf r u).Nodup := by
  induction r with
  | nil => exact List.nodup_nil
  | cons p rest ih =>
    obtain ⟨v, cs⟩ := p
    rw [connsOf_cons]
    by_cases hvu : v = u
    · rw [if_pos hvu]
      exact hwf.connsNodup (v, cs) (List.mem_cons_self _ _)
    · rw [if_neg hvu]
      exact ih (registryWF_tail hwf)

theorem mem_roomEmit {r : Registry} {u : UserId} {ev : String} {e : Emission} :
    e ∈ roomEmit r u ev ↔ e.target ∈ connsOf r u ∧ e.event = ev := by
  unfold roomEmit
  rw [List.mem_map]
  constructor
  · rintro ⟨c, hc, rfl⟩
    exact ⟨hc, rfl⟩
  · obtain ⟨t, v⟩ := e
    rintro ⟨ht, rfl⟩
    exact ⟨t, ht, rfl⟩

theorem count_roomEmit_ne {r : Registry} {u : UserId} {ev ev' : String}
    (h : ev' ≠ ev) (c : SocketId) :
    (roomEmit r u ev).count ⟨c, ev'⟩ = 0 :=
  List.count_eq_zero_of_not_mem (fun hm => h (mem_roomEmit.mp hm).2)

theorem count_roomEmit_self {r : Registry} (hwf : RegistryWF r) (u : UserId)
    (ev : String) (c : SocketId) (hc : c ∈ connsOf r u) :
    (roomEmit r u ev).count ⟨c, ev⟩ = 1 := by
  unfold roomEmit
  have hinj : Function.Injective (fun c : SocketId => (⟨c, ev⟩ : Emission)) := by
    intro a b h
    exact (Emission.mk.inj h).1
  rw [List.count_map_of_injective _ _ hinj]
  exact List.count_eq_one_of_mem (connsOf_nodup hwf u) hc

/-- C3: one send_message call of the socketHandlers revision, with the
receiver online, emits exactly one message_received push per live receiver
connection and exactly one message_sent ack per live sender connection. -/
theorem send_message_emission_counts (r : Registry) (sender receiver : UserId)
    (hwf : RegistryWF r) :
    (∀ c, c ∈ connsOf r receiver →
      (sendMessageEmissions r sender receiver).count ⟨c, "message_received"⟩ = 1) ∧
    (∀ c, c ∈ connsOf r sender →
      (sendMessageEmissions r sender receiver).count ⟨c, "message_sent"⟩ = 1) := by
  constructor
  · intro c hc
    have honline : isOnline r receiver = true :=
      (isOnline_iff_exists_conn hwf receiver).mpr ⟨c, hc⟩
    unfold sendMessageEmissions
    rw [if_pos honline, List.count_append, List.count_append, List.count_append,
      count_roomEmit_ne (by decide) c,
      count_roomEmit_self hwf receiver "message_received" c hc,
      count_roomEmit_ne (by decide) c, count_roomEmit_ne (by decide) c]
  · intro c hc
    unfold sendMessageEmissions
    rw [List.count_append, List.count_append, List.count_append,
      count_roomEmit_self hwf sender "message_sent" c hc,
      count_roomEmit_ne (by decide) c, count_roomEmit_ne (by decide) c]
    have hmid : (if isOnline r receiver = true then
        roomEmit r receiver "message_received" else []).count ⟨c, "message_sent"⟩ = 0 := by
      split_ifs
      · exact count_roomEmit_ne (by decide) c
      · rfl
    rw [hmid]

theorem findMsg_cons (m : Msg) (rest : Store) (mid : String) :
    findMsg (m :: rest) mid = if m.id = mid then some m else findMsg rest mid := rfl

theorem findMsg_some {s : Store} {mid : String} {m : Msg}
    (h : findMsg s mid = some m) : m.id = mid ∧ m ∈ s := by
  induction s with
  | nil => exact absurd h (by simp [findMsg])
  | cons x rest ih =>
    rw [findMsg_cons] at h
    by_cases hx : x.id = mid
    · rw [if_pos hx] at h
      obtain rfl := Option.some.inj h
      exact ⟨hx, List.mem_cons_self _ _⟩
    · rw [if_neg hx] at h
      obtain ⟨h1, h2⟩ := ih h
      exact ⟨h1, List.mem_cons_of_mem _ h2⟩

theorem findMsg_eq_none_iff {s : Store} {mid : String} :
    findMsg s mid = none ↔ ∀ m ∈ s, m.id ≠ mid := by
  induction s with
  | nil => simp [findMsg]
  | cons x rest ih =>
    rw [findMsg_cons]
    by_cases hx : x.id = mid
    · rw [if_pos hx]
      constructor
      · intro h
        exact Option.noConfusion h
      · intro h
        exact absurd hx (h x (List.mem_cons_self _ _))
    · rw [if_neg hx, ih]
      constructor
      · intro h m hm
        rcases List.mem_cons.mp hm with rfl | hm'
        · exact hx
        · exact h m hm'
      · intro h m hm
        exact h m (List.mem_cons_of_mem _ hm)

theorem findMsg_map {f : Msg → Msg} (hid : ∀ x, (f x).id = x.id)
    (s : Store) (mid : String) :
    findMsg (s.map f) mid = (findMsg s mid).map f := by
  induction s with
  | nil => rfl
  | cons x rest ih =>
    rw [List.map_cons, findMsg_cons, findMsg_cons, hid x]
    by_cases hx : x.id = mid
    · rw [if_pos hx, if_pos hx]
      rfl
    · rw [if_neg hx, if_neg hx]
      exact ih

theorem eq_of_mem_of_idsNodup {s : Store} (h : (storeIds s).Nodup) {a b : Msg}
    (ha : a ∈ s) (hb : b ∈ s) (hid : a.id = b.id) : a = b := by
  induction s with
  | nil => exact absurd ha (List.not_mem_nil a)
  | cons x rest ih =>
    have hh := h
    simp only [storeIds, List.map_cons, List.nodup_cons] at hh
    rcases List.mem_cons.mp ha with rfl | ha'
    · rcases List.mem_cons.mp hb with rfl | hb'
      · rfl
      · exact absurd (hid ▸ List.mem_map_of_mem Msg.id hb') hh.1
    · rcases List.mem_cons.mp hb with rfl | hb'
      · exact absurd (hid.symm ▸ List.mem_map_of_mem Msg.id ha') hh.1
      · exact ih hh.2 ha' hb'

theorem seen_mono_of_map {s : Store} {f : Msg → Msg}
    (hid : ∀ x, (f x).id = x.id)
    (hseen : ∀ x, x.seen = true → (f x).seen = true)
    (hnodup : (storeIds s).Nodup) {m m' : Msg}
    (hm : m ∈ s) (hm' : m' ∈ s.map f) (heq : m'.id = m.id)
    (hs : m.seen = true) : m'.seen = true := by
  obtain ⟨a, ha, rfl⟩ := List.mem_map.mp hm'
  have haeq : a = m := eq_of_mem_of_idsNodup hnodup ha hm ((hid a).symm.trans heq)
  subst haeq
  exact hseen a hs

theorem seen_mono_of_subset {s t : Store} (hsub : ∀ x ∈ t, x ∈ s)
    (hnodup : (storeIds s).Nodup) {m m' : Msg}
    (hm : m ∈ s) (hm' : m' ∈ t) (heq : m'.id = m.id) (hs : m.seen = true) :
    m'.seen = true := by
  have heqm : m' = m := eq_of_mem_of_idsNodup hnodup (hsub m' hm') hm heq
  rw [heqm]
  exact hs

theorem mem_of_mem_page {l : List Msg} {k n : Nat} {x : Msg}
    (h : x ∈ ((l.reverse.drop k).take n).reverse) : x ∈ l := by
  rw [List.mem_reverse] at h
  exact List.mem_reverse.mp (List.mem_of_mem_drop (List.mem_of_mem_take h))

theorem send_message_emission_counts_witness :
    ((sendMessageEmissions [("A", ["c1", "c2"]), ("B", ["c3"])] "A" "B").count
        ⟨"c3", "message_received"⟩ = 1) ∧
      ((sendMessageEmissions [("A", ["c1", "c2"]), ("B", ["c3"])] "A" "B").count
        ⟨"c1", "message_sent"⟩ = 1) :=
  ⟨(send_message_emission_counts _ "A" "B"
      ⟨by decide, by decide, by decide⟩).1 "c3" (by decide),
    (send_message_emission_counts _ "A" "B"
      ⟨by decide, by decide, by decide⟩).2 "c1" (by decide)⟩

theorem jsFalsy_none : jsFalsy none = true := rfl

theorem msg_set_seen_eq_self {m : Msg} (h : m.seen = true) :
    ({ m with seen := true } : Msg) = m := by
  obtain ⟨i, sd, rc, t, im, sn, ca⟩ := m
  cases sn
  · simp at h
  · rfl

/-- C9: whenever both users exist, getConversationMessages is never a pure
read: its store side effect is exactly the pointwise update that sets the
seen flag on every message sent by the other user to the reader, leaving
every other field and every message of any other conversation unchanged. -/
theorem get_conversation_marks_other_to_reader_seen
    (users : List UserId) (s : Store) (reader other : UserId)
    (page limit : Nat) (hr : reader ∈ users) (ho : other ∈ users) :
    (getConversationMessages users s reader other page limit).2 =
      s.map (fun m =>
        if m.senderId = other ∧ m.receiverId = reader then
          { m with seen := true }
        else m) := by
  unfold getConversationMessages
  rw [if_neg (by push_neg; exact ⟨hr, ho⟩)]
  show markMessagesAsSeen s other reader = _
  unfold markMessagesAsSeen
  have hfun : ∀ m : Msg,
      (if m.senderId = other ∧ m.receiverId = reader ∧ m.seen = false then
        ({ m with seen := true } : Msg) else m) =
      (if m.senderId = other ∧ m.receiverId = reader then
        ({ m with seen := true } : Msg) else m) := by
    intro m
    by_cases hab : m.senderId = other ∧ m.receiverId = reader
    · rw [if_pos hab]
      by_cases hseen : m.seen = false
      · rw [if_pos ⟨hab.1, hab.2, hseen⟩]
      · rw [if_neg (fun hh => hseen hh.2.2)]
        have hs : m.seen = true := by
          cases hm : m.seen
          · exact absurd hm hseen
          · rfl
        exact (msg_set_seen_eq_self hs).symm
    · rw [if_neg hab, if_neg (fun hh => hab ⟨hh.1, hh.2.1⟩)]
  rw [show
    (fun m : Msg =>
      if m.senderId = other ∧ m.receiverId = reader ∧ m.seen = false then
        ({ m with seen := true } : Msg) else m) =
    (fun m : Msg =>
      if m.senderId = other ∧ m.receiverId = reader then
        ({ m with seen := true } : Msg) else m) from funext hfun]

theorem get_conversation_marks_seen_witness :
    (getConversationMessages ["A", "B"]
        [⟨"m1", "B", "A", some "hi", none, false, 0⟩] "A" "B" 1 50).2 =
      [⟨"m1", "B", "A", some "hi", none, true, 0⟩] := by
  rw [get_conversation_marks_other_to_reader_seen ["A", "B"]
    [⟨"m1", "B", "A", some "hi", none, false, 0⟩] "A" "B" 1 50
    (by decide) (by decide)]
  decide

/-- C5 (amended): the service-layer MarkSeen (markSingleMessageAsSeen, used
by the socket path and the service-revision HTTP route) returns Forbidden
(403) and leaves the store unchanged whenever the caller is not the
message's receiver; the legacy HTTP mark-seen endpoint instead performs no
authorization check: for any caller it reports success and the addressed
message ends up seen. -/
theorem mark_seen_forbidden_for_non_receiver :
    (∀ (s : Store) (mid uid : String) (m : Msg),
        findMsg s mid = some m → m.receiverId ≠ uid →
        markSingleMessageAsSeen s mid uid = (OpResult.httpError 403, s)) ∧
    (∀ (s : Store) (mid rid : String) (m : Msg),
        findMsg s mid = some m →
        (legacyMarkMessageAsSeen s mid rid).1 = OpResult.ok ∧
          ∃ m', findMsg (legacyMarkMessageAsSeen s mid rid).2 mid = some m' ∧
            m'.seen = true) := by
  constructor
  · intro s mid uid m hfind hne
    simp only [markSingleMessageAsSeen, hfind]
    rw [if_pos hne]
  · intro s mid rid m hfind
    refine ⟨rfl, ?_⟩
    have hid : ∀ x : Msg,
        ((if x.id = mid then { x with seen := true } else x) : Msg).id = x.id := by
      intro x
      by_cases hx : x.id = mid
      · rw [if_pos hx]
      · rw [if_neg hx]
    show ∃ m', findMsg
        (s.map (fun x => if x.id = mid then { x with seen := true } else x)) mid =
        some m' ∧ m'.seen = true
    rw [findMsg_map hid, hfind, Option.map_some']
    refine ⟨_, rfl, ?_⟩
    show ((if m.id = mid then { m with seen := true } else m) : Msg).seen = true
    rw [if_pos (findMsg_some hfind).1]

/-- C5 counterexample: a MarkSeen call through the legacy HTTP endpoint by
caller "A", who is not the receiver "B" of the stored message, returns
success rather than Forbidden and flips the stored message's seen flag. -/
theorem mark_seen_non_receiver_counterexample :
    legacyMarkMessageAsSeen [⟨"m1", "S", "B", some "hi", none, false, 0⟩]
        "m1" "A" =
      (OpResult.ok, [⟨"m1", "S", "B", some "hi", none, true, 0⟩]) := by
  decide

theorem mark_seen_forbidden_witness :
    markSingleMessageAsSeen [⟨"m1", "S", "B", some "hi", none, false, 0⟩]
        "m1" "A" =
      (OpResult.httpError 403, [⟨"m1", "S", "B", some "hi", none, false, 0⟩]) :=
  mark_seen_forbidden_for_non_receiver.1 _ "m1" "A"
    ⟨"m1", "S", "B", some "hi", none, false, 0⟩ (by decide) (by decide)

/-- C4 (amended): the socket send_message handler and the service-layer
createMessage reject a request whose text and image are both empty with
InvalidArgument (400) and persist nothing (nothing is persisted even when a
user lookup fails first with 404); the legacy HTTP sendMessage, however,
performs no content validation: it reports success and persists a message
even when both fields are empty. -/
theorem empty_send_rejected :
    (∀ (users : List UserId) (s : Store) (newId : String) (now : Nat)
        (a b : String) (text image : Option String),
        jsFalsy text = true → jsFalsy image = true →
        (createMessage users s newId now a b text image).2 = s ∧
          (a ∈ users → b ∈ users →
            (createMessage users s newId now a b text image).1 =
              SendResult.httpError 400)) ∧
    (∀ (map : SocketMap) (users : List UserId) (s : Store) (newId : String)
        (now : Nat) (sid : SocketId) (sender : String) (data : SendMessageInput),
        jsFalsy data.text = true → jsFalsy data.image = true →
        handleSendMessage map users s newId now sid sender data =
          (s, [⟨sid, "error"⟩])) ∧
    (∀ (map : SocketMap) (s : Store) (newId : String) (now : Nat)
        (a b : String) (text image : Option String),
        (legacySendMessage map s newId now a b text image).1 = OpResult.ok ∧
          (legacySendMessage map s newId now a b text image).2.1.length =
            s.length + 1) := by
  refine ⟨?_, ?_, ?_⟩
  · intro users s newId now a b text image ht hi
    by_cases ha : a ∉ users
    · refine ⟨?_, fun hmem _ => absurd hmem ha⟩
      unfold createMessage
      rw [if_pos ha]
    · by_cases hb : b ∉ users
      · refine ⟨?_, fun _ hmem => absurd hmem hb⟩
        unfold createMessage
        rw [if_neg ha, if_pos hb]
      · constructor
        · unfold createMessage
          rw [if_neg ha, if_neg hb]
          simp [ht, hi, jsFalsy_none]
        · intro _ _
          unfold createMessage
          rw [if_neg ha, if_neg hb]
          simp [ht, hi, jsFalsy_none]
  · intro map users s newId now sid sender data ht hi
    unfold handleSendMessage
    by_cases hrid : data.receiverId = ""
    · rw [if_pos hrid]
    · rw [if_neg hrid, if_pos (show (jsFalsy data.text && jsFalsy data.image) = true
        by rw [ht, hi]; rfl)]
  · intro map s newId now a b text image
    exact ⟨rfl, by simp [legacySendMessage]⟩

/-- C4 counterexample: the legacy HTTP sendMessage, called with neither text
nor image, reports success and performs the store create call, persisting a
content-less message. -/
theorem empty_send_persisted_counterexample :
    legacySendMessage [] [] "m1" 0 "A" "B" none none =
      (OpResult.ok, [⟨"m1", "A", "B", none, none, false, 0⟩], []) := by
  decide

theorem empty_send_rejected_witness :
    (createMessage ["A", "B"] [] "m1" 0 "A" "B" none none).2 = [] ∧
      (createMessage ["A", "B"] [] "m1" 0 "A" "B" none none).1 =
        SendResult.httpError 400 :=
  ⟨(empty_send_rejected.1 ["A", "B"] [] "m1" 0 "A" "B" none none rfl rfl).1,
    (empty_send_rejected.1 ["A", "B"] [] "m1" 0 "A" "B" none none rfl rfl).2
      (by decide) (by decide)⟩

theorem createMessage_store_cases (users : List UserId) (s : Store)
    (newId : String) (now : Nat) (a b : String) (t i : Option String) :
    (createMessage users s newId now a b t i).2 = s ∨
      ∃ msg : Msg, msg.id = newId ∧
        (createMessage users s newId now a b t i).2 = s ++ [msg] := by
  unfold createMessage
  by_cases h1 : a ∉ users
  · left
    rw [if_pos h1]
  · rw [if_neg h1]
    by_cases h2 : b ∉ users
    · left
      rw [if_pos h2]
    · rw [if_neg h2]
      by_cases h3 : (jsFalsy t && jsFalsy (if jsFalsy i = true then none else i)) = true
      · left
        rw [if_pos h3]
      · right
        rw [if_neg h3]
        exact ⟨_, rfl, rfl⟩

theorem markSingle_store_cases (s : Store) (mid uid : String) :
    (markSingleMessageAsSeen s mid uid).2 = s ∨
      (markSingleMessageAsSeen s mid uid).2 =
        s.map (fun x => if x.id = mid then { x with seen := true } else x) := by
  cases hfind : findMsg s mid with
  | none =>
    left
    simp only [markSingleMessageAsSeen, hfind]
  | some m =>
    simp only [markSingleMessageAsSeen, hfind]
    by_cases h1 : m.receiverId ≠ uid
    · left
      rw [if_pos h1]
    · rw [if_neg h1]
      by_cases h2 : m.seen = false
      · right
        rw [if_pos h2]
      · left
        rw [if_neg h2]

/-- C7: MarkSeen is idempotent — one markSingleMessageAsSeen by the receiver
leaves the message seen, a second identical call returns the same result and
the same store — and no store operation of either server revision ever
moves a message's seen flag from true back to false. -/
theorem mark_seen_idempotent_and_seen_monotone :
    (∀ (s : Store) (mid uid : String) (m : Msg),
        findMsg s mid = some m → m.receiverId = uid →
        ∃ m', findMsg (markSingleMessageAsSeen s mid uid).2 mid = some m' ∧
          m'.seen = true) ∧
    (∀ (s : Store) (mid uid : String),
        markSingleMessageAsSeen (markSingleMessageAsSeen s mid uid).2 mid uid =
          markSingleMessageAsSeen s mid uid) ∧
    (∀ (s : Store) (op : StoreOp) (m m' : Msg),
        (storeIds s).Nodup → opFreshId s op → m ∈ s → m' ∈ applyStoreOp s op →
        m'.id = m.id → m.seen = true → m'.seen = true) := by
  have hid : ∀ (mid : String) (x : Msg),
      ((if x.id = mid then { x with seen := true } else x) : Msg).id = x.id := by
    intro mid x
    by_cases hx : x.id = mid
    · rw [if_pos hx]
    · rw [if_neg hx]
  refine ⟨?_, ?_, ?_⟩
  · intro s mid uid m hfind hrecv
    simp only [markSingleMessageAsSeen, hfind]
    rw [if_neg (fun h => h hrecv)]
    by_cases hseen : m.seen = false
    · rw [if_pos hseen]
      refine ⟨(if m.id = mid then { m with seen := true } else m), ?_, ?_⟩
      · show findMsg
          (s.map fun x => if x.id = mid then { x with seen := true } else x) mid =
          some _
        rw [findMsg_map (hid mid), hfind, Option.map_some']
      · rw [if_pos (findMsg_some hfind).1]
    · rw [if_neg hseen]
      refine ⟨m, hfind, ?_⟩
      cases hm : m.seen
      · exact absurd hm hseen
      · rfl
  · intro s mid uid
    cases hfind : findMsg s mid with
    | none =>
      have h1 : markSingleMessageAsSeen s mid uid = (OpResult.httpError 404, s) := by
        simp only [markSingleMessageAsSeen, hfind]
      rw [h1]
      exact h1
    | some m =>
      by_cases hne : m.receiverId ≠ uid
      · have h1 : markSingleMessageAsSeen s mid uid = (OpResult.httpError 403, s) := by
          simp only [markSingleMessageAsSeen, hfind]
          rw [if_pos hne]
        rw [h1]
        exact h1
      · by_cases hseen : m.seen = false
        · have h1 : markSingleMessageAsSeen s mid uid =
              (OpResult.ok,
                s.map fun x => if x.id = mid then { x with seen := true } else x) := by
            simp only [markSingleMessageAsSeen, hfind]
            rw [if_neg hne, if_pos hseen]
          have hfind2 : findMsg
              (s.map fun x => if x.id = mid then { x with seen := true } else x)
              mid = some { m with seen := true } := by
            rw [findMsg_map (hid mid), hfind, Option.map_some',
              if_pos (findMsg_some hfind).1]
          rw [h1]
          show markSingleMessageAsSeen
            (s.map fun x => if x.id = mid then { x with seen := true } else x)
            mid uid = _
          simp only [markSingleMessageAsSeen, hfind2]
          rw [if_neg (show ¬({ m with seen := true } : Msg).receiverId ≠ uid from
              fun h => hne h)]
          rw [if_neg (show ¬({ m with seen := true } : Msg).seen = false from
              fun h => Bool.noConfusion h)]
        · have h1 : markSingleMessageAsSeen s mid uid = (OpResult.ok, s) := by
            simp only [markSingleMessageAsSeen, hfind]
            rw [if_neg hne, if_neg hseen]
          rw [h1]
          exact h1
  · intro s op m m' hnodup hfresh hm hm' heq hs
    cases op with
    | create users newId now a b t i =>
      rcases createMessage_store_cases users s newId now a b t i with
        hcase | ⟨msg, hmsgid, hcase⟩
      · rw [show applyStoreOp s (StoreOp.create users newId now a b t i) =
          (createMessage users s newId now a b t i).2 from rfl, hcase] at hm'
        exact seen_mono_of_subset (fun x hx => hx) hnodup hm hm' heq hs
      · rw [show applyStoreOp s (StoreOp.create users newId now a b t i) =
          (createMessage users s newId now a b t i).2 from rfl, hcase] at hm'
        rcases List.mem_append.mp hm' with hmem | hnew
        · exact seen_mono_of_subset (fun x hx => hx) hnodup hm hmem heq hs
        · rw [List.mem_singleton] at hnew
          subst hnew
          have h5 : m.id ∈ storeIds s := List.mem_map_of_mem Msg.id hm
          rw [← heq, hmsgid] at h5
          exact absurd h5 hfresh
    | markBulk a b =>
      refine seen_mono_of_map ?_ ?_ hnodup hm hm' heq hs
      · intro x
        by_cases hx : x.senderId = a ∧ x.receiverId = b ∧ x.seen = false
        · rw [if_pos hx]
        · rw [if_neg hx]
      · intro x hx
        by_cases hc : x.senderId = a ∧ x.receiverId = b ∧ x.seen = false
        · rw [if_pos hc]
        · rw [if_neg hc]
          exact hx
    | markSingle mid uid =>
      rcases markSingle_store_cases s mid uid with hcase | hcase
      · rw [show applyStoreOp s (StoreOp.markSingle mid uid) =
          (markSingleMessageAsSeen s mid uid).2 from rfl, hcase] at hm'
        exact seen_mono_of_subset (fun x hx => hx) hnodup hm hm' heq hs
      · rw [show applyStoreOp s (StoreOp.markSingle mid uid) =
          (markSingleMessageAsSeen s mid uid).2 from rfl, hcase] at hm'
        refine seen_mono_of_map (hid mid) ?_ hnodup hm hm' heq hs
        intro x hx
        by_cases hxm : x.id = mid
        · rw [if_pos hxm]
        · rw [if_neg hxm]
          exact hx
    | getConv users a b page limit =>
      simp only [applyStoreOp, getConversationMessages] at hm'
      split_ifs at hm' with h1
      · exact seen_mono_of_subset (fun x hx => hx) hnodup hm hm' heq hs
      · simp only [markMessagesAsSeen] at hm'
        refine seen_mono_of_map ?_ ?_ hnodup hm hm' heq hs
        · intro x
          by_cases hx : x.senderId = b ∧ x.receiverId = a ∧ x.seen = false
          · rw [if_pos hx]
          · rw [if_neg hx]
        · intro x hx
          by_cases hc : x.senderId = b ∧ x.receiverId = a ∧ x.seen = false
          · rw [if_pos hc]
          · rw [if_neg hc]
            exact hx
    | deleteOne mid uid =>
      cases hfind : findMsg s mid with
      | none =>
        simp only [applyStoreOp, deleteMessage, hfind] at hm'
        exact seen_mono_of_subset (fun x hx => hx) hnodup hm hm' heq hs
      | some x =>
        simp only [applyStoreOp, deleteMessage, hfind] at hm'
        split_ifs at hm' with h1
        · exact seen_mono_of_subset (fun x hx => hx) hnodup hm hm' heq hs
        · have hsub : ∀ y ∈ s.filter (fun z => decide (z.id ≠ mid)), y ∈ s :=
            fun y hy => (List.mem_filter.mp hy).1
          exact seen_mono_of_subset hsub hnodup hm hm' heq hs
    | legacySend map newId now a b t i =>
      simp only [applyStoreOp, legacySendMessage] at hm'
      rcases List.mem_append.mp hm' with hmem | hnew
      · exact seen_mono_of_subset (fun x hx => hx) hnodup hm hmem heq hs
      · rw [List.mem_singleton] at hnew
        subst hnew
        have h5 : m.id ∈ storeIds s := List.mem_map_of_mem Msg.id hm
        rw [← heq] at h5
        exact absurd h5 hfresh
    | legacyGet a b =>
      simp only [applyStoreOp, legacyGetMessages] at hm'
      refine seen_mono_of_map ?_ ?_ hnodup hm hm' heq hs
      · intro x
        by_cases hx : x.senderId = b ∧ x.receiverId = a
        · rw [if_pos hx]
        · rw [if_neg hx]
      · intro x hx
        by_cases hc : x.senderId = b ∧ x.receiverId = a
        · rw [if_pos hc]
        · rw [if_neg hc]
          exact hx
    | legacyMark mid rid =>
      simp only [applyStoreOp, legacyMarkMessageAsSeen] at hm'
      refine seen_mono_of_map (hid mid) ?_ hnodup hm hm' heq hs
      intro x hx
      by_cases hxm : x.id = mid
      · rw [if_pos hxm]
      · rw [if_neg hxm]
        exact hx

theorem mark_seen_idempotent_witness :
    (∃ m', findMsg (markSingleMessageAsSeen
        [⟨"m1", "S", "B", some "hi", none, false, 0⟩] "m1" "B").2 "m1" =
        some m' ∧ m'.seen = true) ∧
      markSingleMessageAsSeen (markSingleMessageAsSeen
          [⟨"m1", "S", "B", some "hi", none, false, 0⟩] "m1" "B").2 "m1" "B" =
        markSingleMessageAsSeen
          [⟨"m1", "S", "B", some "hi", none, false, 0⟩] "m1" "B" :=
  ⟨mark_seen_idempotent_and_seen_monotone.1
      [⟨"m1", "S", "B", some "hi", none, false, 0⟩] "m1" "B"
      ⟨"m1", "S", "B", some "hi", none, false, 0⟩ (by decide) (by decide),
    mark_seen_idempotent_and_seen_monotone.2.1
      [⟨"m1", "S", "B", some "hi", none, false, 0⟩] "m1" "B"⟩

theorem getConv_messages_mem {users : List UserId} {s : Store} {a b : UserId}
    {page limit : Nat} {p : ConversationPage}
    (hp : (getConversationMessages users s a b page limit).1 =
      ConvResult.page p) :
    ∀ x ∈ p.messages, x ∈ s ∧ conversationBetween a b x = true := by
  intro x hx
  unfold getConversationMessages at hp
  by_cases husers : a ∉ users ∨ b ∉ users
  · rw [if_pos husers] at hp
    exact absurd hp (fun h => ConvResult.noConfusion h)
  · rw [if_neg husers] at hp
    have hpp := ConvResult.page.inj hp
    rw [← hpp] at hx
    have hmem := mem_of_mem_page hx
    exact ⟨(List.mem_filter.mp hmem).1, (List.mem_filter.mp hmem).2⟩

/-- C8: deleteMessage returns Forbidden (403) and removes nothing unless the
requester is the message's sender; when the requester is the sender, the
message is removed from the store so that every later getConversationMessages
page excludes it, and a message_deleted notice goes to the original
receiver's socket exactly when that user is online. -/
theorem delete_message_requires_sender (map : SocketMap) (s : Store)
    (mid requester : String) (m : Msg) (hfind : findMsg s mid = some m) :
    (m.senderId ≠ requester →
      deleteMessageHttp map s mid requester = (OpResult.httpError 403, s, [])) ∧
    (m.senderId = requester →
      findMsg (deleteMessageHttp map s mid requester).2.1 mid = none ∧
      (∀ (users : List UserId) (a b : UserId) (page limit : Nat)
          (p : ConversationPage),
        (getConversationMessages users
            (deleteMessageHttp map s mid requester).2.1 a b page limit).1 =
          ConvResult.page p →
        ∀ x ∈ p.messages, x.id ≠ mid) ∧
      (∀ sid, lookupSocket map m.receiverId = some sid →
        (deleteMessageHttp map s mid requester).2.2 =
          [⟨sid, "message_deleted"⟩]) ∧
      (lookupSocket map m.receiverId = none →
        (deleteMessageHttp map s mid requester).2.2 = [])) := by
  constructor
  · intro hne
    have hdel : deleteMessage s mid requester = (OpResult.httpError 403, s) := by
      simp only [deleteMessage, hfind]
      rw [if_pos hne]
    simp only [deleteMessageHttp, hfind, hdel]
  · intro hsender
    have hdel : deleteMessage s mid requester =
        (OpResult.ok, s.filter (fun x => decide (x.id ≠ mid))) := by
      simp only [deleteMessage, hfind]
      rw [if_neg (fun h => h hsender)]
    have hstore : (deleteMessageHttp map s mid requester).2.1 =
        s.filter (fun x => decide (x.id ≠ mid)) := by
      simp only [deleteMessageHttp, hfind, hdel]
    have hnone : findMsg (s.filter (fun x => decide (x.id ≠ mid))) mid = none := by
      rw [findMsg_eq_none_iff]
      intro x hx
      exact of_decide_eq_true (List.mem_filter.mp hx).2
    refine ⟨?_, ?_, ?_, ?_⟩
    · rw [hstore]
      exact hnone
    · intro users a b page limit p hp x hx
      rw [hstore] at hp
      have hmem := (getConv_messages_mem hp x hx).1
      exact of_decide_eq_true (List.mem_filter.mp hmem).2
    · intro sid hsid
      simp only [deleteMessageHttp, hfind, hdel, hsid]
    · intro hsid
      simp only [deleteMessageHttp, hfind, hdel, hsid]

theorem delete_message_requires_sender_witness :
    (deleteMessageHttp [("B", "c3")] [⟨"m1", "A", "B", some "hi", none, false, 0⟩]
        "m1" "C" =
      (OpResult.httpError 403, [⟨"m1", "A", "B", some "hi", none, false, 0⟩], [])) ∧
      findMsg (deleteMessageHttp [("B", "c3")]
          [⟨"m1", "A", "B", some "hi", none, false, 0⟩] "m1" "A").2.1 "m1" =
        none ∧
      (deleteMessageHttp [("B", "c3")]
          [⟨"m1", "A", "B", some "hi", none, false, 0⟩] "m1" "A").2.2 =
        [⟨"c3", "message_deleted"⟩] :=
  ⟨(delete_message_requires_sender [("B", "c3")]
      [⟨"m1", "A", "B", some "hi", none, false, 0⟩] "m1" "C"
      ⟨"m1", "A", "B", some "hi", none, false, 0⟩ (by decide)).1 (by decide),
    ((delete_message_requires_sender [("B", "c3")]
      [⟨"m1", "A", "B", some "hi", none, false, 0⟩] "m1" "A"
      ⟨"m1", "A", "B", some "hi", none, false, 0⟩ (by decide)).2 (by decide)).1,
    ((delete_message_requires_sender [("B", "c3")]
      [⟨"m1", "A", "B", some "hi", none, false, 0⟩] "m1" "A"
      ⟨"m1", "A", "B", some "hi", none, false, 0⟩ (by decide)).2 (by decide)).2.2.1
      "c3" (by decide)⟩

theorem mem_getConv_page {users : List UserId} {t : Store} {a b : UserId}
    {limit : Nat} {p : ConversationPage} {x : Msg}
    (ha : a ∈ users) (hb : b ∈ users)
    (hx : x ∈ t) (hconv : conversationBetween a b x = true)
    (hlim : t.length ≤ limit)
    (hp : (getConversationMessages users t a b 1 limit).1 = ConvResult.page p) :
    x ∈ p.messages := by
  unfold getConversationMessages at hp
  rw [if_neg (fun h => h.elim (fun hh => hh ha) (fun hh => hh hb))] at hp
  have hpp := ConvResult.page.inj hp
  have hmsg : p.messages =
      (((t.filter (conversationBetween a b)).reverse.drop ((1 - 1) * limit)).take
        limit).reverse := by
    rw [← hpp]
  have hlen : (t.filter (conversationBetween a b)).reverse.length ≤ limit := by
    rw [List.length_reverse]
    exact le_trans (List.length_filter_le _ _) hlim
  rw [hmsg, show (1 - 1) * limit = 0 from Nat.zero_mul limit, List.drop_zero,
    List.take_of_length_le hlen, List.reverse_reverse]
  exact List.mem_filter.mpr ⟨hx, hconv⟩

/-- C2: a send through the socket service to a receiver with no live
connection persists the message, emits no message_received push (only the
message_sent ack to the calling socket is emitted), and the persisted
message is returned by subsequent getConversationMessages calls issued by
either participant, on any page size that holds the whole conversation. -/
theorem offline_send_persists_and_is_fetched
    (map : SocketMap) (users : List UserId) (s : Store) (newId : String)
    (now : Nat) (callerSid : SocketId) (sender : String)
    (data : SendMessageInput)
    (hs : sender ∈ users) (hr : data.receiverId ∈ users)
    (hrid : data.receiverId ≠ "")
    (hcontent : ¬(jsFalsy data.text = true ∧ jsFalsy data.image = true))
    (hoffline : lookupSocket map data.receiverId = none) :
    ∃ m : Msg,
      (handleSendMessage map users s newId now callerSid sender data).1 =
        s ++ [m] ∧
      m.id = newId ∧ m.senderId = sender ∧ m.receiverId = data.receiverId ∧
      m.seen = false ∧
      (handleSendMessage map users s newId now callerSid sender data).2 =
        [⟨callerSid, "message_sent"⟩] ∧
      (∀ a b : UserId,
        (a = sender ∧ b = data.receiverId) ∨
          (a = data.receiverId ∧ b = sender) →
        ∀ (limit : Nat) (p : ConversationPage), s.length + 1 ≤ limit →
          (getConversationMessages users (s ++ [m]) a b 1 limit).1 =
            ConvResult.page p →
          m ∈ p.messages) := by
  have hbandf : ¬((jsFalsy data.text && jsFalsy data.image) = true) := by
    intro h
    rw [Bool.and_eq_true] at h
    exact hcontent h
  have hcond : (jsFalsy data.text &&
      jsFalsy (if jsFalsy data.image = true then none else data.image)) = false := by
    by_cases hi : jsFalsy data.image = true
    · have ht : jsFalsy data.text = false := by
        cases hx : jsFalsy data.text
        · rfl
        · exact absurd ⟨hx, hi⟩ hcontent
      rw [ht, Bool.false_and]
    · have hib : jsFalsy data.image = false := by
        cases hx : jsFalsy data.image
        · rfl
        · exact absurd hx hi
      rw [if_neg hi, hib, Bool.and_false]
  have hcondne : ¬((jsFalsy data.text &&
      jsFalsy (if jsFalsy data.image = true then none else data.image)) = true) := by
    rw [hcond]
    exact Bool.false_ne_true
  have hcreate : createMessage users s newId now sender data.receiverId
      data.text data.image =
    (SendResult.created
      { id := newId, senderId := sender, receiverId := data.receiverId,
        text := if jsFalsy data.text = true then none else data.text,
        image := if jsFalsy data.image = true then none else data.image,
        seen := false, createdAt := now },
     s ++ [{ id := newId, senderId := sender, receiverId := data.receiverId,
             text := if jsFalsy data.text = true then none else data.text,
             image := if jsFalsy data.image = true then none else data.image,
             seen := false, createdAt := now }]) := by
    unfold createMessage
    rw [if_neg (not_not_intro hs), if_neg (not_not_intro hr), if_neg hcondne]
  have hhandle : handleSendMessage map users s newId now callerSid sender data =
      (s ++ [{ id := newId, senderId := sender, receiverId := data.receiverId,
               text := if jsFalsy data.text = true then none else data.text,
               image := if jsFalsy data.image = true then none else data.image,
               seen := false, createdAt := now }],
        [⟨callerSid, "message_sent"⟩]) := by
    unfold handleSendMessage
    rw [if_neg hrid, if_neg hbandf]
    simp only [hcreate, hoffline]
  refine ⟨{ id := newId, senderId := sender, receiverId := data.receiverId,
            text := if jsFalsy data.text = true then none else data.text,
            image := if jsFalsy data.image = true then none else data.image,
            seen := false, createdAt := now }, ?_, rfl, rfl, rfl, rfl, ?_, ?_⟩
  · rw [hhandle]
  · rw [hhandle]
  · intro a b hab limit p hlim hp
    rcases hab with ⟨rfl, rfl⟩ | ⟨rfl, rfl⟩
    · exact mem_getConv_page hs hr
        (List.mem_append.mpr (Or.inr (List.mem_singleton.mpr rfl)))
        (decide_eq_true (Or.inl ⟨rfl, rfl⟩))
        (by rw [List.length_append]; exact hlim) hp
    · exact mem_getConv_page hr hs
        (List.mem_append.mpr (Or.inr (List.mem_singleton.mpr rfl)))
        (decide_eq_true (Or.inr ⟨rfl, rfl⟩))
        (by rw [List.length_append]; exact hlim) hp

theorem offline_send_persists_witness :
    ∃ m : Msg,
      (handleSendMessage [] ["A", "B"] [] "m1" 0 "cA" "A"
          ⟨"B", some "hi", none⟩).1 = [] ++ [m] ∧
      m.id = "m1" ∧ m.senderId = "A" ∧ m.receiverId = "B" ∧ m.seen = false ∧
      (handleSendMessage [] ["A", "B"] [] "m1" 0 "cA" "A"
          ⟨"B", some "hi", none⟩).2 = [⟨"cA", "message_sent"⟩] ∧
      (∀ a b : UserId,
        (a = "A" ∧ b = "B") ∨ (a = "B" ∧ b = "A") →
        ∀ (limit : Nat) (p : ConversationPage),
          (([] : Store)).length + 1 ≤ limit →
          (getConversationMessages ["A", "B"] ([] ++ [m]) a b 1 limit).1 =
            ConvResult.page p →
          m ∈ p.messages) :=
  offline_send_persists_and_is_fetched [] ["A", "B"] [] "m1" 0 "cA" "A"
    ⟨"B", some "hi", none⟩ (by decide) (by decide) (by decide)
    (by intro h; exact Bool.noConfusion h.1) rfl

theorem seenFlip_id (mid : String) (x : Msg) :
    ((if x.id = mid then { x with seen := true } else x) : Msg).id = x.id := by
  by_cases hx : x.id = mid
  · rw [if_pos hx]
  · rw [if_neg hx]

theorem markSingle_ok_of_receiver {s : Store} {mid uid : String} {m : Msg}
    (hfind : findMsg s mid = some m) (hrecv : m.receiverId = uid) :
    (markSingleMessageAsSeen s mid uid).1 = OpResult.ok := by
  simp only [markSingleMessageAsSeen, hfind]
  rw [if_neg (fun h => h hrecv)]
  by_cases hseen : m.seen = false
  · rw [if_pos hseen]
  · rw [if_neg hseen]

theorem markSingle_preserves_receiver {s : Store} {mid uid : String}
    (mid' : String) {m : Msg} (h : findMsg s mid' = some m) :
    ∃ m', findMsg (markSingleMessageAsSeen s mid uid).2 mid' = some m' ∧
      m'.receiverId = m.receiverId := by
  rcases markSingle_store_cases s mid uid with hc | hc
  · rw [hc]
    exact ⟨m, h, rfl⟩
  · rw [hc, findMsg_map (seenFlip_id mid), h, Option.map_some']
    refine ⟨_, rfl, ?_⟩
    by_cases hx : m.id = mid
    · rw [if_pos hx]
    · rw [if_neg hx]

theorem markAllSeen_cons (s : Store) (reader mid : String) (rest : List String) :
    markAllSeen s reader (mid :: rest) =
      match markSingleMessageAsSeen s mid reader with
      | (OpResult.ok, s') => markAllSeen s' reader rest
      | (OpResult.httpError _, s') => ((markAllSeen s' reader rest).1, false) :=
  rfl

theorem markAllSeen_ok (reader : String) :
    ∀ (mids : List String) (s : Store),
      (∀ mid ∈ mids, ∃ m, findMsg s mid = some m ∧ m.receiverId = reader) →
      (markAllSeen s reader mids).2 = true := by
  intro mids
  induction mids with
  | nil =>
    intro s _
    rfl
  | cons mid rest ih =>
    intro s hall
    obtain ⟨m, hfind, hrecv⟩ := hall mid (List.mem_cons_self _ _)
    cases hEq : markSingleMessageAsSeen s mid reader with
    | mk r s2 =>
      have hr : r = OpResult.ok := by
        have hok := markSingle_ok_of_receiver hfind hrecv
        rw [hEq] at hok
        exact hok
      subst hr
      have hstep : markAllSeen s reader (mid :: rest) = markAllSeen s2 reader rest := by
        rw [markAllSeen_cons, hEq]
      rw [hstep]
      refine ih s2 ?_
      intro mid' hmid'
      obtain ⟨m', hfind', hrecv'⟩ := hall mid' (List.mem_cons_of_mem _ hmid')
      obtain ⟨m'', hfind'', hrecv''⟩ :=
        @markSingle_preserves_receiver s mid reader mid' m' hfind'
      rw [hEq] at hfind''
      exact ⟨m'', hfind'', hrecv''.trans hrecv'⟩

theorem map_seenFlip_senderRewrite (f : String → String) (mid : String)
    (s : Store) :
    (s.map (fun m => { m with senderId := f m.senderId })).map
        (fun x => if x.id = mid then { x with seen := true } else x) =
      (s.map (fun x => if x.id = mid then { x with seen := true } else x)).map
        (fun m => { m with senderId := f m.senderId }) := by
  induction s with
  | nil => rfl
  | cons x rest ih =>
    rw [List.map_cons, List.map_cons, List.map_cons, List.map_cons, ih]
    congr 1
    by_cases hx : x.id = mid
    · rw [if_pos (show ({ x with senderId := f x.senderId } : Msg).id = mid
        from hx), if_pos hx]
    · rw [if_neg (show ¬({ x with senderId := f x.senderId } : Msg).id = mid
        from hx), if_neg hx]

theorem markSingle_senderRewrite (f : String → String) (s : Store)
    (mid uid : String) :
    markSingleMessageAsSeen
        (s.map (fun m => { m with senderId := f m.senderId })) mid uid =
      ((markSingleMessageAsSeen s mid uid).1,
        (markSingleMessageAsSeen s mid uid).2.map
          (fun m => { m with senderId := f m.senderId })) := by
  cases hfind : findMsg s mid with
  | none =>
    have h2 : findMsg (s.map (fun m => { m with senderId := f m.senderId }))
        mid = none := by
      rw [@findMsg_map (fun m => { m with senderId := f m.senderId })
        (fun x => rfl) s mid, hfind]
      rfl
    simp only [markSingleMessageAsSeen, hfind, h2]
  | some m =>
    have h2 : findMsg (s.map (fun m => { m with senderId := f m.senderId }))
        mid = some { m with senderId := f m.senderId } := by
      rw [@findMsg_map (fun m => { m with senderId := f m.senderId })
        (fun x => rfl) s mid, hfind, Option.map_some']
    simp only [markSingleMessageAsSeen, hfind, h2]
    by_cases hrecv : m.receiverId ≠ uid
    · rw [if_pos hrecv, if_pos
        (show ({ m with senderId := f m.senderId } : Msg).receiverId ≠ uid
          from hrecv)]
    · rw [if_neg hrecv, if_neg
        (show ¬({ m with senderId := f m.senderId } : Msg).receiverId ≠ uid
          from hrecv)]
      by_cases hseen : m.seen = false
      · rw [if_pos hseen, if_pos
          (show ({ m with senderId := f m.senderId } : Msg).seen = false
            from hseen)]
        refine congrArg (fun t => (OpResult.ok, t)) ?_
        exact map_seenFlip_senderRewrite f mid s
      · rw [if_neg hseen, if_neg
          (show ¬({ m with senderId := f m.senderId } : Msg).seen = false
            from hseen)]

theorem markAllSeen_senderRewrite (f : String → String) (reader : String) :
    ∀ (mids : List String) (s : Store),
      markAllSeen (s.map (fun m => { m with senderId := f m.senderId }))
          reader mids =
        ((markAllSeen s reader mids).1.map
            (fun m => { m with senderId := f m.senderId }),
          (markAllSeen s reader mids).2) := by
  intro mids
  induction mids with
  | nil =>
    intro s
    rfl
  | cons mid rest ih =>
    intro s
    cases hEq : markSingleMessageAsSeen s mid reader with
    | mk r s2 =>
      have hrw : markSingleMessageAsSeen
          (s.map (fun m => { m with senderId := f m.senderId })) mid reader =
          (r, s2.map (fun m => { m with senderId := f m.senderId })) := by
        rw [markSingle_senderRewrite f s mid reader, hEq]
      rw [markAllSeen_cons, markAllSeen_cons, hEq, hrw]
      cases r with
      | ok => exact ih s2
      | httpError e =>
        show ((markAllSeen (s2.map (fun m => { m with senderId := f m.senderId }))
            reader rest).1, false) =
          ((markAllSeen s2 reader rest).1.map
            (fun m => { m with senderId := f m.senderId }), false)
        rw [ih s2]

/-- C10 (amended): the messages_read push of handleMarkMessagesRead is
routed purely from the caller-supplied senderId field: when every referenced
message exists and is addressed to the caller, the push goes to the socket
mapped to the supplied user (nothing when that user is offline), and the
stored messages' senderId is never consulted — rewriting every stored
senderId leaves the handler's emissions unchanged.  When some referenced
message is missing or not addressed to the caller, the handler emits an
error to the calling socket and no messages_read push occurs. -/
theorem mark_messages_read_routing (map : SocketMap) (s : Store)
    (callerSid : SocketId) (readerId : String) (data : ReadReceiptInput) :
    ((∀ mid ∈ data.messageIds,
        ∃ m, findMsg s mid = some m ∧ m.receiverId = readerId) →
      (handleMarkMessagesRead map s callerSid readerId data).2 =
        match lookupSocket map data.senderId with
        | some sid => [⟨sid, "messages_read"⟩]
        | none => []) ∧
    (∀ f : String → String,
      (handleMarkMessagesRead map
          (s.map (fun m => { m with senderId := f m.senderId }))
          callerSid readerId data).2 =
        (handleMarkMessagesRead map s callerSid readerId data).2) := by
  constructor
  · intro hall
    have hok := markAllSeen_ok readerId data.messageIds s hall
    unfold handleMarkMessagesRead
    rw [if_pos hok]
  · intro f
    unfold handleMarkMessagesRead
    rw [markAllSeen_senderRewrite f readerId data.messageIds s]
    dsimp only
    by_cases hflag : (markAllSeen s readerId data.messageIds).2 = true
    · rw [if_pos hflag, if_pos hflag]
    · rw [if_neg hflag, if_neg hflag]

/-- C10 counterexample: the caller-supplied senderId "S" is online, yet the
request fails its marking phase (the referenced message is addressed to "B",
not to the caller "A"), so no messages_read push is delivered — the handler
emits an error to the calling socket instead. -/
theorem messages_read_not_pushed_on_failed_mark :
    lookupSocket [("S", "sockS")] "S" = some "sockS" ∧
      (handleMarkMessagesRead [("S", "sockS")]
          [⟨"m1", "X", "B", some "hi", none, false, 0⟩] "sockA" "A"
          ⟨["m1"], "S"⟩).2 = [⟨"sockA", "error"⟩] := by
  constructor
  · decide
  · decide

theorem mark_messages_read_routing_witness :
    (handleMarkMessagesRead [("S", "sockS")]
        [⟨"m1", "X", "B", some "hi", none, false, 0⟩] "sockB" "B"
        ⟨["m1"], "S"⟩).2 = [⟨"sockS", "messages_read"⟩] :=
  (mark_messages_read_routing [("S", "sockS")]
      [⟨"m1", "X", "B", some "hi", none, false, 0⟩] "sockB" "B"
      ⟨["m1"], "S"⟩).1
    (by
      intro mid hmid
      rw [List.mem_singleton] at hmid
      subst hmid
      exact ⟨⟨"m1", "X", "B", some "hi", none, false, 0⟩, rfl, rfl⟩)

end ChatApp
